import Mathlib

/-!
Verification of the note lifecycle & consistency engine of the yapgan
repository (Go backend, `internal/notes`), against its natural-language
specification.

Strings of the Go program are modelled as Lean `String`s viewed as their
character sequences (`List Char`); slicing and regular-expression scanning
in the Go sources operate on these sequences.  Go's `len` on a string
counts UTF-8 bytes and is modelled as the UTF-8 byte length of the
character sequence (`goStrLen`), and `strings.TrimSpace` trims the full
Unicode white-space set.  Unicode case mapping is modelled on the ASCII
range, which is the range exercised by the slug and tag-name operations.

The relational store (PostgreSQL) is modelled as an explicit record of
tables (`DB`); each repository method is a pure state transformer translated
from the SQL it executes, and the two versioning triggers of migration
`008_create_note_versions.sql` are folded into the embedded `Update`/`Create`
operations exactly as the `BEFORE UPDATE`/`AFTER INSERT` triggers run inside
the same transaction.  Asynchronous best-effort work (vector indexing,
view-count increments) and wall-clock timestamps are outside the model; no
claim below is about them.
-/

deriving instance DecidableEq for Except

namespace Yapgan

/-! ### Character-level text utilities -/

/-- The white space recognised by Go's `unicode.IsSpace` (used by
`strings.TrimSpace`): `'\t'`, `'\n'`, `'\v'`, `'\f'`, `'\r'`, `' '`,
NEL, NBSP, and the Unicode White_Space code points U+1680,
U+2000..U+200A, U+2028, U+2029, U+202F, U+205F and U+3000. -/
def isSpaceGo (c : Char) : Bool :=
  c = ' ' || c = '\t' || c = '\n' || c = '\x0b' || c = '\x0c' || c = '\r' ||
  c = '\u0085' || c = '\u00A0' || c = '\u1680' ||
  ('\u2000' ≤ c && c ≤ '\u200A') ||
  c = '\u2028' || c = '\u2029' || c = '\u202F' || c = '\u205F' || c = '\u3000'

/-- `strings.TrimSpace`: drop whitespace from both ends. -/
def goTrimSpace (cs : List Char) : List Char :=
  ((cs.dropWhile isSpaceGo).reverse.dropWhile isSpaceGo).reverse

/-- Go's `len` on a string: the UTF-8 byte length of the character
sequence. -/
def goStrLen (cs : List Char) : Nat :=
  cs.foldr (fun c n => c.utf8Size + n) 0

/-- `strings.ToLower`, on the ASCII range (via `Char.toLower`). -/
def goToLower (cs : List Char) : List Char :=
  cs.map Char.toLower

/-- Lexicographic comparison of character lists; stands in for the
relational store's `ORDER BY` over tag names. -/
def charListLe : List Char → List Char → Bool
  | [], _ => true
  | _ :: _, [] => false
  | a :: as, b :: bs => if a = b then charListLe as bs else decide (a < b)

/-- String order used when the store sorts tag names. -/
def strLe (a b : String) : Bool :=
  charListLe a.toList b.toList

/-- Insert into a `strLe`-sorted list. -/
def insertSorted (s : String) : List String → List String
  | [] => [s]
  | x :: xs => if strLe s x then s :: x :: xs else x :: insertSorted s xs

/-- Sort a list of strings (`ORDER BY name`). -/
def sortStrings (l : List String) : List String :=
  l.foldr insertSorted []

/-- `strings.Split(s, "\n")` on the character sequence: the empty input
yields one empty field, and each `'\n'` starts a new field. -/
def splitLinesChars : List Char → List (List Char)
  | [] => [[]]
  | c :: cs =>
    if c = '\n' then [] :: splitLinesChars cs
    else
      match splitLinesChars cs with
      | [] => [[c]]
      | l :: ls => (c :: l) :: ls

/-- First-occurrence deduplication with an accumulator of already-seen
values; this is the `seen`-map loop shared by `uniqueStrings`
(service.go) and `ExtractNoteLinks` (links.go). -/
def dedupKeepFirst (seen : List String) : List String → List String
  | [] => []
  | x :: xs => if x ∈ seen then dedupKeepFirst seen xs else x :: dedupKeepFirst (x :: seen) xs

/-- `uniqueStrings` from service.go: deduplicate preserving first
occurrence order. -/
def uniqueStrings (input : List String) : List String :=
  dedupKeepFirst [] input

/-! ### Wikilink extraction (`ExtractNoteLinks`, regex `\[\[([^\]]+)\]\]`) -/

/-- Split a character list into its maximal leading run of non-`']'`
characters and the remainder; this is how the greedy `[^\]]+` consumes
input. -/
def grabRun : List Char → List Char × List Char
  | [] => ([], [])
  | c :: cs =>
    if c = ']' then ([], c :: cs)
    else
      let (r, a) := grabRun cs
      (c :: r, a)

/-- One left-to-right pass of Go's leftmost regex search for
`\[\[([^\]]+)\]\]`: at `[[` take the maximal nonempty run of non-`]`
characters; a match needs `]]` right after it and the scan resumes past
the closing brackets, otherwise the scan advances one character (the
regex engine retries from the next start position).  The fuel argument
equals the input length and only makes the recursion structural. -/
def linkMatchesAux : Nat → List Char → List (List Char)
  | 0, _ => []
  | _ + 1, [] => []
  | fuel + 1, '[' :: '[' :: cs =>
    (match grabRun cs with
     | (r :: rs, ']' :: ']' :: rest) => (r :: rs) :: linkMatchesAux fuel rest
     | (_, _) => linkMatchesAux fuel ('[' :: cs))
  | fuel + 1, _ :: cs => linkMatchesAux fuel cs

/-- All raw (possibly duplicated) `[[...]]` inner texts of a body, in
match order. -/
def linkMatches (cs : List Char) : List (List Char) :=
  linkMatchesAux cs.length cs

/-- `ExtractNoteLinks` (links.go): the raw regex matches with duplicates
collapsed by exact string match, first occurrence kept. -/
def ExtractNoteLinks (content : String) : List String :=
  dedupKeepFirst [] ((linkMatches content.toList).map String.mk)

/-! ### Line diff (`GenerateContentDiff`, diff.go) -/

inductive DiffType where
  | unchanged
  | removed
  | added
deriving DecidableEq, Repr

structure DiffLine where
  type : DiffType
  content : String
  lineNum : Nat
deriving DecidableEq, Repr

/-- Tail of the diff loop once the new side is exhausted (`newLine` is the
zero value `""`): equal lines are `unchanged`, others are `removed`, and
only `unchanged` lines advance `lineNum`. -/
def diffTailOld : List String → Nat → List DiffLine
  | [], _ => []
  | o :: os, ln =>
    if o = "" then ⟨.unchanged, o, ln⟩ :: diffTailOld os (ln + 1)
    else ⟨.removed, o, ln⟩ :: diffTailOld os ln

/-- Tail of the diff loop once the old side is exhausted (`oldLine` is the
zero value `""`). -/
def diffTailNew : List String → Nat → List DiffLine
  | [], _ => []
  | n :: ns, ln =>
    if n = "" then ⟨.unchanged, n, ln⟩ :: diffTailNew ns (ln + 1)
    else ⟨.added, n, ln⟩ :: diffTailNew ns (ln + 1)

/-- The index-by-index walk of `GenerateContentDiff`: both line lists in
lockstep up to the longer length. -/
def diffWalk : List String → List String → Nat → List DiffLine
  | [], ns, ln => diffTailNew ns ln
  | os, [], ln => diffTailOld os ln
  | o :: os, n :: ns, ln =>
    if o = n then ⟨.unchanged, o, ln⟩ :: diffWalk os ns (ln + 1)
    else
      (if o ≠ "" then [(⟨.removed, o, ln⟩ : DiffLine)] else []) ++
        (if n ≠ "" then ⟨.added, n, ln⟩ :: diffWalk os ns (ln + 1)
         else diffWalk os ns ln)

/-- `GenerateContentDiff` (diff.go): split both contents on newline and
walk them positionally. -/
def GenerateContentDiff (oldContent newContent : String) : List DiffLine :=
  diffWalk ((splitLinesChars oldContent.toList).map String.mk)
    ((splitLinesChars newContent.toList).map String.mk) 1

/-! ### Slug generation (`generateSlug`, service.go) -/

/-- Characters kept by the regex replacement `[^a-z0-9-_]+` → `""`. -/
def slugAllowed (c : Char) : Bool :=
  ('a' ≤ c && c ≤ 'z') || ('0' ≤ c && c ≤ '9') || c = '-' || c = '_'

/-- Collapse runs of hyphens (regex `-+` → `-`), tracking the previously
kept character. -/
def collapseHyphens : Option Char → List Char → List Char
  | _, [] => []
  | prev, c :: cs =>
    if c = '-' && prev = some '-' then collapseHyphens prev cs
    else c :: collapseHyphens (some c) cs

/-- `strings.Trim(slug, "-")`. -/
def trimHyphens (cs : List Char) : List Char :=
  ((cs.dropWhile (· = '-')).reverse.dropWhile (· = '-')).reverse

/-- `generateSlug` (service.go): lowercase, spaces to hyphens, strip
disallowed characters, collapse and trim hyphens, truncate to 100, and
fall back to the first 8 characters of the note id when empty. -/
def generateSlug (title noteID : String) : String :=
  let s := goToLower title.toList
  let s := s.map (fun c => if c = ' ' then '-' else c)
  let s := s.filter slugAllowed
  let s := collapseHyphens none s
  let s := trimHyphens s
  let s := s.take 100
  if s = [] then String.mk (noteID.toList.take 8) else String.mk s

/-! ### Relational data model

Rows of the `notes`, `tags`, `note_tags`, `note_links` and `note_versions`
tables.  Timestamps are not modelled. -/

structure NoteRow where
  id : String
  userId : String
  title : String
  contentMd : String
  sourceURL : Option String
  isPublic : Bool
  publicSlug : Option String
  viewCount : Nat
deriving DecidableEq, Repr

structure TagRow where
  id : String
  userId : String
  name : String
deriving DecidableEq, Repr

structure VersionRow where
  id : String
  noteId : String
  versionNumber : Nat
  title : String
  contentMd : String
  sourceURL : Option String
  tags : List String
  changeSummary : String
  charsAdded : Nat
  charsRemoved : Nat
  createdBy : String
deriving DecidableEq, Repr

/-- The relational store.  `noteTags` holds `(note_id, tag_id)` pairs,
`noteLinks` holds `(source_note_id, target_note_id)` pairs. -/
structure DB where
  notes : List NoteRow
  tags : List TagRow
  noteTags : List (String × String)
  noteLinks : List (String × String)
  versions : List VersionRow
deriving DecidableEq, Repr

def DB.empty : DB := ⟨[], [], [], [], []⟩

/-- Request bodies (note.go).  A `none` field is an omitted (`nil`)
pointer/slice in Go. -/
structure CreateNoteRequest where
  title : String
  contentMd : String
  sourceURL : Option String
  tags : List String
deriving DecidableEq, Repr

structure UpdateNoteRequest where
  title : Option String
  contentMd : Option String
  sourceURL : Option String
  tags : Option (List String)
deriving DecidableEq, Repr

/-! ### Note repository (repository.go) and versioning triggers -/

/-- `FindByID`: `WHERE id = $1 AND user_id = $2`. -/
def findNote (db : DB) (userId noteId : String) : Option NoteRow :=
  db.notes.find? (fun n => decide (n.id = noteId ∧ n.userId = userId))

/-- `GetNoteTags` and the triggers' tag-array subquery: names of the tags
attached to a note, `ORDER BY t.name`. -/
def noteTagNames (db : DB) (noteId : String) : List String :=
  sortStrings ((db.tags.filter
    (fun t => decide ((noteId, t.id) ∈ db.noteTags))).map (·.name))

/-- All versions of a note, in insertion order. -/
def versionsFor (db : DB) (noteId : String) : List VersionRow :=
  db.versions.filter (fun v => decide (v.noteId = noteId))

/-- `COALESCE(MAX(version_number), 0)` over a note's versions. -/
def maxVersionFor (db : DB) (noteId : String) : Nat :=
  (versionsFor db noteId).foldr (fun v m => Nat.max v.versionNumber m) 0

/-- The change summary computed by `create_note_version` (migration 008):
character delta of the body, prefixed by "Title changed" when the title
differs, defaulting to "Minor update". -/
def changeSummary (titleChanged : Bool) (charsAdded charsRemoved : Nat) : String :=
  let s := if titleChanged then "Title changed" else ""
  let s := if charsAdded > 0 then
      (if s ≠ "" then s ++ ", " else s) ++ "+" ++ toString charsAdded ++ " chars"
    else s
  let s := if charsRemoved > 0 then
      (if s ≠ "" then s ++ ", " else s) ++ "-" ++ toString charsRemoved ++ " chars"
    else s
  if s = "" then "Minor update" else s

/-- The snapshot row inserted by the `create_note_version` trigger
function for an UPDATE with rows `old`/`new`: number `max + 1`, NEW
content fields, the note's current tag names, and the computed change
summary. -/
def updateVersionRow (db : DB) (old new : NoteRow) (freshVersionId : String) : VersionRow :=
  let oldLen := old.contentMd.toList.length
  let newLen := new.contentMd.toList.length
  let charsAdded := if newLen > oldLen then newLen - oldLen else 0
  let charsRemoved := if newLen > oldLen then 0 else oldLen - newLen
  { id := freshVersionId
    noteId := new.id
    versionNumber := maxVersionFor db new.id + 1
    title := new.title
    contentMd := new.contentMd
    sourceURL := new.sourceURL
    tags := noteTagNames db new.id
    changeSummary := changeSummary (old.title ≠ new.title) charsAdded charsRemoved
    charsAdded := charsAdded
    charsRemoved := charsRemoved
    createdBy := new.userId }

/-- Body of the `create_note_version` trigger function: append the
snapshot of the NEW row. -/
def triggerCreateNoteVersion (db : DB) (old new : NoteRow) (freshVersionId : String) : DB :=
  { db with versions := db.versions ++ [updateVersionRow db old new freshVersionId] }

/-- The version-1 snapshot inserted by `create_note_version_on_insert`. -/
def insertVersionRow (db : DB) (new : NoteRow) (freshVersionId : String) : VersionRow :=
  { id := freshVersionId
    noteId := new.id
    versionNumber := 1
    title := new.title
    contentMd := new.contentMd
    sourceURL := new.sourceURL
    tags := noteTagNames db new.id
    changeSummary := "Initial version"
    charsAdded := new.contentMd.toList.length
    charsRemoved := 0
    createdBy := new.userId }

/-- Body of the `create_note_version_on_insert` trigger function: version 1
of a freshly inserted note. -/
def triggerInsertVersion (db : DB) (new : NoteRow) (freshVersionId : String) : DB :=
  { db with versions := db.versions ++ [insertVersionRow db new freshVersionId] }

/-- `PostgresNoteRepository.Create` plus the `note_insert_version` AFTER
INSERT trigger, in one transaction.  `freshNoteId`/`freshVersionId` model
the generated UUIDs. -/
def createdNoteRow (userId title contentMd : String) (sourceURL : Option String)
    (freshNoteId : String) : NoteRow :=
  { id := freshNoteId, userId := userId, title := title, contentMd := contentMd
    sourceURL := sourceURL, isPublic := false, publicSlug := none, viewCount := 0 }

def repoCreateNote (db : DB) (userId title contentMd : String) (sourceURL : Option String)
    (freshNoteId freshVersionId : String) : DB × NoteRow :=
  let note := createdNoteRow userId title contentMd sourceURL freshNoteId
  let db := { db with notes := db.notes ++ [note] }
  (triggerInsertVersion db note freshVersionId, note)

/-- The row produced by the dynamic UPDATE of
`PostgresNoteRepository.Update`: each supplied field overwrites, the rest
keep their stored values. -/
def updatedNote (n : NoteRow) (title contentMd sourceURL : Option String) : NoteRow :=
  { n with
    title := title.getD n.title
    contentMd := contentMd.getD n.contentMd
    sourceURL := match sourceURL with | some s => some s | none => n.sourceURL }

/-- The `WHEN` clause of the `note_update_version` trigger: some content
field is actually distinct between OLD and NEW. -/
def contentDistinct (n n' : NoteRow) : Prop :=
  n.title ≠ n'.title ∨ n.contentMd ≠ n'.contentMd ∨ n.sourceURL ≠ n'.sourceURL

instance (n n' : NoteRow) : Decidable (contentDistinct n n') := by
  unfold contentDistinct; infer_instance

/-- `PostgresNoteRepository.Update` plus the `note_update_version` BEFORE
UPDATE trigger.  A call with no supplied field runs no UPDATE (it falls
back to `FindByID`); otherwise the row is rewritten and the trigger fires
exactly when title, body or source URL is actually distinct. -/
def repoUpdateNote (db : DB) (userId noteId : String)
    (title contentMd sourceURL : Option String) (freshVersionId : String) :
    DB × Except String NoteRow :=
  match findNote db userId noteId with
  | none => (db, .error "note not found")
  | some n =>
    if title = none ∧ contentMd = none ∧ sourceURL = none then (db, .ok n)
    else
      let n' := updatedNote n title contentMd sourceURL
      let db :=
        if contentDistinct n n' then triggerCreateNoteVersion db n n' freshVersionId
        else db
      ({ db with notes := db.notes.map (fun m =>
          if m.id = noteId ∧ m.userId = userId then n' else m) }, .ok n')

/-! ### Tag repository (tag_repository.go) -/

/-- Tag-name normalization: `strings.ToLower(strings.TrimSpace(name))`. -/
def normalizeTagName (name : String) : String :=
  String.mk (goToLower (goTrimSpace name.toList))

/-- `FindOrCreateByName`: empty normalized names are rejected; otherwise
the per-user tag row is found or inserted. -/
def findOrCreateTag (db : DB) (userId name freshTagId : String) :
    DB × Except String TagRow :=
  let norm := normalizeTagName name
  if norm = "" then (db, .error "tag name cannot be empty")
  else
    match db.tags.find? (fun t => decide (t.userId = userId ∧ t.name = norm)) with
    | some t => (db, .ok t)
    | none =>
      let t : TagRow := ⟨freshTagId, userId, norm⟩
      ({ db with tags := db.tags ++ [t] }, .ok t)

/-- `Service.ensureTagsExist`: resolve each name in order, stopping at the
first failure (earlier creations persist). -/
def ensureTagsExist (db : DB) (userId : String) :
    List String → List String → DB × Except String (List String)
  | [], _ => (db, .ok [])
  | name :: names, freshIds =>
    match findOrCreateTag db userId name (freshIds.headD "") with
    | (db1, .error e) => (db1, .error e)
    | (db1, .ok t) =>
      match ensureTagsExist db1 userId names freshIds.tail with
      | (db2, .error e) => (db2, .error e)
      | (db2, .ok ids) => (db2, .ok (t.id :: ids))

/-- `SetNoteTags`: delete all associations of the note, insert the new
ones (one transaction). -/
def setNoteTags (db : DB) (noteId : String) (tagIds : List String) : DB :=
  { db with noteTags :=
      db.noteTags.filter (fun p => decide (p.1 ≠ noteId)) ++ tagIds.map (noteId, ·) }

/-- `FindByNames`: normalize the names, return the matching per-user tag
rows in table order. -/
def findTagsByNames (db : DB) (userId : String) (names : List String) : List TagRow :=
  let norm := names.map normalizeTagName
  db.tags.filter (fun t => decide (t.userId = userId ∧ t.name ∈ norm))

/-- `FindByID` on tags. -/
def findTag (db : DB) (userId tagId : String) : Option TagRow :=
  db.tags.find? (fun t => decide (t.userId = userId ∧ t.id = tagId))

/-- Predicate: `n` is a note of `userId` carrying `tagId` (the join used
by `GetNotesCountByTag` and `Delete`). -/
def carriesTag (db : DB) (userId tagId : String) (n : NoteRow) : Bool :=
  decide (n.userId = userId ∧ (n.id, tagId) ∈ db.noteTags)

/-- `GetNotesCountByTag`: `COUNT(DISTINCT n.id)` over the join. -/
def getNotesCountByTag (db : DB) (userId tagId : String) : Nat :=
  (((db.notes.filter (carriesTag db userId tagId)).map (·.id)).dedup).length

/-- `PostgresTagRepository.Delete`: in one transaction, collect the ids of
the owner's notes carrying the tag, delete those notes (cascading their
associations, links and versions), delete the tag row, and roll back with
an error when the tag row does not exist. -/
def tagRepoDelete (db : DB) (userId tagId : String) :
    DB × Except String (List String) :=
  if (db.tags.find? (fun t => decide (t.id = tagId ∧ t.userId = userId))).isNone then
    (db, .error "tag not found or access denied")
  else
    let noteIds := (db.notes.filter (carriesTag db userId tagId)).map (·.id)
    let db :=
      { db with
        notes := db.notes.filter (fun n => decide (¬(n.id ∈ noteIds ∧ n.userId = userId)))
        noteTags := db.noteTags.filter (fun p => decide (p.1 ∉ noteIds))
        noteLinks := db.noteLinks.filter
          (fun p => decide (p.1 ∉ noteIds ∧ p.2 ∉ noteIds))
        versions := db.versions.filter (fun v => decide (v.noteId ∉ noteIds))
        tags := db.tags.filter (fun t => decide (¬(t.id = tagId ∧ t.userId = userId))) }
    (db, .ok noteIds)

/-! ### Link graph maintenance (link_repository.go, service.go) -/

/-- `FindNoteByTitle`: case-insensitive owner-scoped title lookup,
`LIMIT 1`. -/
def findNoteByTitle (db : DB) (userId title : String) : Option String :=
  (db.notes.find? (fun n =>
    decide (n.userId = userId ∧ goToLower n.title.toList = goToLower title.toList))).map (·.id)

/-- `CreateLink` with `ON CONFLICT DO NOTHING`. -/
def createLink (db : DB) (sourceNoteId targetNoteId : String) : DB :=
  if (sourceNoteId, targetNoteId) ∈ db.noteLinks then db
  else { db with noteLinks := db.noteLinks ++ [(sourceNoteId, targetNoteId)] }

/-- `Service.processNoteLinks`: drop the note's outbound edges, then link
to every extracted title that resolves; unresolved titles are skipped. -/
def processNoteLinks (db : DB) (userId noteId content : String) : DB :=
  let db := { db with noteLinks := db.noteLinks.filter (fun p => decide (p.1 ≠ noteId)) }
  (ExtractNoteLinks content).foldl
    (fun db title =>
      match findNoteByTitle db userId title with
      | some target => createLink db noteId target
      | none => db)
    db

/-! ### The note lifecycle orchestrator (service.go) -/

namespace Service

/-- `Service.CreateNote`: validate title/body, deduplicate the tag names,
persist the note (with its version-1 snapshot, via the insert trigger),
then resolve tags and replace the note's tag set, then rewrite wikilinks.
A tag failure aborts the call *after* the note row and snapshot are
already persisted.  Vector indexing is asynchronous and outside the
model. -/
def CreateNote (db : DB) (userId : String) (req : CreateNoteRequest)
    (freshNoteId freshVersionId : String) (freshTagIds : List String) :
    DB × Except String NoteRow :=
  if req.title = "" then (db, .error "title is required")
  else if req.contentMd = "" then (db, .error "content is required")
  else
    let tagNames := uniqueStrings req.tags
    let (db1, note) := repoCreateNote db userId req.title req.contentMd req.sourceURL
      freshNoteId freshVersionId
    let step :=
      if tagNames ≠ [] then
        match ensureTagsExist db1 userId tagNames freshTagIds with
        | (db2, .error e) => (db2, Except.error ("failed to process tags: " ++ e))
        | (db2, .ok tagIds) => (setNoteTags db2 note.id tagIds, Except.ok ())
      else (db1, Except.ok ())
    match step with
    | (db2, .error e) => (db2, .error e)
    | (db2, .ok ()) => (processNoteLinks db2 userId note.id req.contentMd, .ok note)

/-- `Service.UpdateNote`: partial update of the content fields (the update
trigger snapshots a version exactly when one of them actually changes),
then full tag-set replacement when a tag list is supplied, then link
rewriting when a body was supplied. -/
def UpdateNote (db : DB) (userId noteId : String) (req : UpdateNoteRequest)
    (freshVersionId : String) (freshTagIds : List String) :
    DB × Except String NoteRow :=
  match repoUpdateNote db userId noteId req.title req.contentMd req.sourceURL freshVersionId with
  | (db1, .error e) => (db1, .error e)
  | (db1, .ok note) =>
    let step :=
      match req.tags with
      | some tagNames =>
        match ensureTagsExist db1 userId tagNames freshTagIds with
        | (db2, .error e) => (db2, Except.error ("failed to process tags: " ++ e))
        | (db2, .ok tagIds) => (setNoteTags db2 note.id tagIds, Except.ok ())
      | none => (db1, Except.ok ())
    match step with
    | (db2, .error e) => (db2, .error e)
    | (db2, .ok ()) =>
      match req.contentMd with
      | some content => (processNoteLinks db2 userId note.id content, .ok note)
      | none => (db2, .ok note)

/-- `Service.DeleteTag`: verify the tag belongs to the user, count the
notes carrying it, then run the cascading repository delete.  Returns the
count reported to the caller together with the deleted note ids the
repository hands back (used to purge the vector index). -/
def DeleteTag (db : DB) (userId tagId : String) :
    DB × Except String (Nat × List String) :=
  match findTag db userId tagId with
  | none => (db, .error "tag not found")
  | some _ =>
    let notesCount := getNotesCountByTag db userId tagId
    match tagRepoDelete db userId tagId with
    | (db1, .error e) => (db1, .error ("failed to delete tag: " ++ e))
    | (db1, .ok deletedNoteIds) => (db1, .ok (notesCount, deletedNoteIds))

/-- The validation prelude of `Service.Search`: a present query whose
trimmed length lies in [2, 50].  `len(strings.TrimSpace(req.Query))` in
the Go code counts UTF-8 bytes, so the bound is a byte bound. -/
def SearchValidate (query : String) : Except String Unit :=
  if query = "" then .error "query is required"
  else
    let queryLen := goStrLen (goTrimSpace query.toList)
    if queryLen < 2 then .error "query must be at least 2 characters long"
    else if queryLen > 50 then .error "query must be at most 50 characters long"
    else .ok ()

/-- Pagination fields of `Service.ListNotes`.  `total` is the count the
note repository reports; `totalPages` embeds
`int(math.Ceil(float64(total) / float64(perPage)))`, which is the exact
ceiling for the integer ranges a note count can take. -/
structure ListNotesPagination where
  page : Int
  perPage : Int
  totalPages : Nat
deriving DecidableEq, Repr

/-- `Service.ListNotes` (pagination part): floor `page` to 1, replace a
non-positive `perPage` by the configured default, cap it at the configured
maximum, and report `ceil(total / perPage)` pages. -/
def ListNotes (defaultPageSize maxPageSize : Int) (page perPage : Int)
    (total : Nat) : ListNotesPagination :=
  let page := if page < 1 then 1 else page
  let perPage := if perPage < 1 then defaultPageSize else perPage
  let perPage := if perPage > maxPageSize then maxPageSize else perPage
  { page := page
    perPage := perPage
    totalPages := (total + perPage.toNat - 1) / perPage.toNat }

/-- `Service.RestoreVersion`: the note must belong to the caller, the
version row must exist and belong to the note; then the snapshot's title,
body and (when present) source URL are written back through the ordinary
repository update — the update trigger decides whether a new version is
snapshotted — and the tag set is replaced by the snapshot's resolvable
tag names. -/
def RestoreVersion (db : DB) (userId noteId versionId : String)
    (freshVersionId : String) : DB × Except String NoteRow :=
  match findNote db userId noteId with
  | none => (db, .error "note not found or access denied")
  | some _ =>
    match db.versions.find? (fun v => decide (v.id = versionId)) with
    | none => (db, .error "version not found")
    | some version =>
      if version.noteId ≠ noteId then (db, .error "version does not belong to this note")
      else
        match repoUpdateNote db userId noteId (some version.title) (some version.contentMd)
            version.sourceURL freshVersionId with
        | (db1, .error e) => (db1, .error ("failed to restore version: " ++ e))
        | (db1, .ok note) =>
          let db2 :=
            if version.tags ≠ [] then
              let tagRows := findTagsByNames db1 userId version.tags
              if tagRows ≠ [] then setNoteTags db1 noteId (tagRows.map (·.id)) else db1
            else setNoteTags db1 noteId []
          let db3 := processNoteLinks db2 userId noteId version.contentMd
          (db3, .ok ((findNote db3 userId noteId).getD note))

/-- `IsSlugAvailable`: no note row (public or not) may already hold the
slug. -/
def isSlugAvailable (db : DB) (slug : String) : Bool :=
  decide ((db.notes.countP (fun n => decide (n.publicSlug = some slug))) = 0)

structure ShareNoteResult where
  isPublic : Bool
  publicSlug : Option String
deriving DecidableEq, Repr

/-- `Service.ShareNote`: toggling public derives a slug from the title,
falls back to `<slug>-<first 8 chars of the note id>` when the slug is
taken, and writes the new visibility through `TogglePublic`.  The
`public_slug UNIQUE` constraint of migration 005 makes that write fail —
rolling the transaction back — if the final slug is still held by another
note.  Toggling private clears the slug. -/
def ShareNote (db : DB) (userId noteId : String) (isPublic : Bool) :
    DB × Except String ShareNoteResult :=
  match findNote db userId noteId with
  | none => (db, .error "note not found")
  | some note =>
    if isPublic then
      let slug := generateSlug note.title noteId
      let slug :=
        if isSlugAvailable db slug then slug
        else slug ++ "-" ++ String.mk (noteId.toList.take 8)
      if db.notes.any (fun n => decide (n.id ≠ noteId ∧ n.publicSlug = some slug)) then
        (db, .error "failed to toggle public status: unique violation")
      else
        ({ db with notes := db.notes.map (fun n =>
            if n.id = noteId ∧ n.userId = userId then
              { n with isPublic := true, publicSlug := some slug }
            else n) }, .ok ⟨true, some slug⟩)
    else
      ({ db with notes := db.notes.map (fun n =>
          if n.id = noteId ∧ n.userId = userId then
            { n with isPublic := false, publicSlug := none }
          else n) }, .ok ⟨false, none⟩)

end Service

/-! ### Vector-space dump (`Service.GetVectorSpace`, service.go)

Points come back from the Vector Index scan as nullable pointers with a
nullable vector payload; the numeric vector data itself is never
inspected, so it is a type parameter. -/

structure QdrantPayload where
  noteId : Option String
  title : Option String
deriving DecidableEq, Repr

structure RetrievedPoint (α : Type) where
  vectors : Option α
  payload : Option QdrantPayload
deriving DecidableEq, Repr

structure VectorPoint (α : Type) where
  noteId : String
  title : String
  vector : α
  tags : List String
deriving DecidableEq, Repr

structure VectorSpaceResponse (α : Type) where
  points : List (VectorPoint α)
  total : Nat
deriving DecidableEq, Repr

/-- A scanned point is usable exactly when the pointer is non-nil and its
vector is set (`point == nil || point.Vectors == nil` is the skip
condition in the Go loop). -/
def hasVector {α : Type} (p : Option (RetrievedPoint α)) : Bool :=
  match p with
  | none => false
  | some pt => pt.vectors.isSome

/-- Loop body of `GetVectorSpace` for an included point: payload fields
default to the empty string (`GetStringValue` of a missing value), and
tags are attached from the relational store when a note id is present. -/
def vectorPointOf {α : Type} (db : DB) (vec : α) (payload : Option QdrantPayload) :
    VectorPoint α :=
  let noteId := (payload.bind (·.noteId)).getD ""
  let title := (payload.bind (·.title)).getD ""
  { noteId := noteId
    title := title
    vector := vec
    tags := if noteId ≠ "" then noteTagNames db noteId else [] }

/-- One iteration of the `GetVectorSpace` loop: `nil` points and points
whose vector pointer is unset produce nothing (`continue`), the rest are
converted. -/
def retrievedToVectorPoint {α : Type} (db : DB) (p : Option (RetrievedPoint α)) :
    Option (VectorPoint α) :=
  match p with
  | none => none
  | some pt =>
    match pt.vectors with
    | none => none
    | some vec => some (vectorPointOf db vec pt.payload)

namespace Service

/-- `Service.GetVectorSpace` over the points the Vector Index scan
returned: skip nil points and points without a vector, convert the rest,
and report the converted points with their count. -/
def GetVectorSpace {α : Type} (db : DB) (points : List (Option (RetrievedPoint α))) :
    VectorSpaceResponse α :=
  let vectorPoints := points.filterMap (retrievedToVectorPoint db)
  { points := vectorPoints, total := vectorPoints.length }

end Service

/-! ### Helper lemmas -/

theorem findNote_props {db : DB} {userId noteId : String} {n : NoteRow}
    (h : findNote db userId noteId = some n) : n.id = noteId ∧ n.userId = userId := by
  have hp := List.find?_some h
  simpa using hp

theorem findNote_mem {db : DB} {userId noteId : String} {n : NoteRow}
    (h : findNote db userId noteId = some n) : n ∈ db.notes :=
  List.mem_of_find?_eq_some h

theorem findOrCreateTag_versions (db : DB) (u name f : String) :
    ((findOrCreateTag db u name f).1).versions = db.versions := by
  by_cases h : normalizeTagName name = ""
  · simp [findOrCreateTag, h]
  · simp only [findOrCreateTag, if_neg h]
    split <;> rfl

theorem findOrCreateTag_notes (db : DB) (u name f : String) :
    ((findOrCreateTag db u name f).1).notes = db.notes := by
  by_cases h : normalizeTagName name = ""
  · simp [findOrCreateTag, h]
  · simp only [findOrCreateTag, if_neg h]
    split <;> rfl

theorem ensureTagsExist_versions (u : String) :
    ∀ (names fids : List String) (db : DB),
      ((ensureTagsExist db u names fids).1).versions = db.versions := by
  intro names
  induction names with
  | nil => intro fids db; rfl
  | cons name names ih =>
    intro fids db
    unfold ensureTagsExist
    rcases hf : findOrCreateTag db u name (fids.headD "") with ⟨db1, res⟩
    have h1 : db1.versions = db.versions := by
      have := findOrCreateTag_versions db u name (fids.headD "")
      rw [hf] at this; exact this
    cases res with
    | error e => simpa using h1
    | ok t =>
      rcases he : ensureTagsExist db1 u names fids.tail with ⟨db2, res2⟩
      have h2 : db2.versions = db1.versions := by
        have := ih fids.tail db1
        rw [he] at this; exact this
      cases res2 <;> simp [he, h2, h1]

theorem ensureTagsExist_notes (u : String) :
    ∀ (names fids : List String) (db : DB),
      ((ensureTagsExist db u names fids).1).notes = db.notes := by
  intro names
  induction names with
  | nil => intro fids db; rfl
  | cons name names ih =>
    intro fids db
    unfold ensureTagsExist
    rcases hf : findOrCreateTag db u name (fids.headD "") with ⟨db1, res⟩
    have h1 : db1.notes = db.notes := by
      have := findOrCreateTag_notes db u name (fids.headD "")
      rw [hf] at this; exact this
    cases res with
    | error e => simpa using h1
    | ok t =>
      rcases he : ensureTagsExist db1 u names fids.tail with ⟨db2, res2⟩
      have h2 : db2.notes = db1.notes := by
        have := ih fids.tail db1
        rw [he] at this; exact this
      cases res2 <;> simp [he, h2, h1]

theorem setNoteTags_versions (db : DB) (nid : String) (tagIds : List String) :
    (setNoteTags db nid tagIds).versions = db.versions := rfl

theorem setNoteTags_notes (db : DB) (nid : String) (tagIds : List String) :
    (setNoteTags db nid tagIds).notes = db.notes := rfl

theorem createLink_versions (db : DB) (s t : String) :
    (createLink db s t).versions = db.versions := by
  unfold createLink; split <;> rfl

theorem createLink_notes (db : DB) (s t : String) :
    (createLink db s t).notes = db.notes := by
  unfold createLink; split <;> rfl

theorem linkFold_versions (u nid : String) :
    ∀ (titles : List String) (db : DB),
      ((titles.foldl
        (fun db title =>
          match findNoteByTitle db u title with
          | some target => createLink db nid target
          | none => db) db)).versions = db.versions := by
  intro titles
  induction titles with
  | nil => intro db; rfl
  | cons t ts ih =>
    intro db
    simp only [List.foldl_cons]
    rw [ih]
    cases h : findNoteByTitle db u t <;> simp [createLink_versions]

theorem linkFold_notes (u nid : String) :
    ∀ (titles : List String) (db : DB),
      ((titles.foldl
        (fun db title =>
          match findNoteByTitle db u title with
          | some target => createLink db nid target
          | none => db) db)).notes = db.notes := by
  intro titles
  induction titles with
  | nil => intro db; rfl
  | cons t ts ih =>
    intro db
    simp only [List.foldl_cons]
    rw [ih]
    cases h : findNoteByTitle db u t <;> simp [createLink_notes]

theorem processNoteLinks_versions (db : DB) (u nid content : String) :
    (processNoteLinks db u nid content).versions = db.versions := by
  unfold processNoteLinks
  rw [linkFold_versions]

theorem processNoteLinks_notes (db : DB) (u nid content : String) :
    (processNoteLinks db u nid content).notes = db.notes := by
  unfold processNoteLinks
  rw [linkFold_notes]

theorem versionsFor_of_eq {db db' : DB} (h : db'.versions = db.versions) (nid : String) :
    versionsFor db' nid = versionsFor db nid := by
  unfold versionsFor; rw [h]

theorem versionsFor_trigger_update (db : DB) (old new : NoteRow) (vid nid : String)
    (h : new.id = nid) :
    versionsFor (triggerCreateNoteVersion db old new vid) nid =
      versionsFor db nid ++ [updateVersionRow db old new vid] := by
  unfold triggerCreateNoteVersion versionsFor
  rw [List.filter_append]
  simp [updateVersionRow, h]

theorem versionsFor_trigger_insert (db : DB) (new : NoteRow) (vid nid : String)
    (h : new.id = nid) :
    versionsFor (triggerInsertVersion db new vid) nid =
      versionsFor db nid ++ [insertVersionRow db new vid] := by
  unfold triggerInsertVersion versionsFor
  rw [List.filter_append]
  simp [insertVersionRow, h]

theorem repoUpdateNote_versions {db : DB} {u nid : String} (t c s : Option String)
    (vid : String) {n : NoteRow} (h : findNote db u nid = some n) :
    ((repoUpdateNote db u nid t c s vid).1).versions =
      if ¬(t = none ∧ c = none ∧ s = none) ∧ contentDistinct n (updatedNote n t c s) then
        db.versions ++ [updateVersionRow db n (updatedNote n t c s) vid]
      else db.versions := by
  unfold repoUpdateNote
  rw [h]
  dsimp only
  by_cases hall : t = none ∧ c = none ∧ s = none
  · simp [hall]
  · rw [if_neg hall]
    by_cases hd : contentDistinct n (updatedNote n t c s)
    · simp [hd, hall, triggerCreateNoteVersion]
    · simp [hd, hall]

theorem repoUpdateNote_result {db : DB} {u nid : String} (t c s : Option String)
    (vid : String) {n : NoteRow} (h : findNote db u nid = some n) :
    (repoUpdateNote db u nid t c s vid).2 =
      .ok (if t = none ∧ c = none ∧ s = none then n else updatedNote n t c s) := by
  unfold repoUpdateNote
  rw [h]
  dsimp only
  by_cases hall : t = none ∧ c = none ∧ s = none
  · simp [hall]
  · rw [if_neg hall]
    by_cases hd : contentDistinct n (updatedNote n t c s) <;> simp [hd, hall]

/-- The service-level update only ever touches the versions table through
the repository update (tag replacement and link rewriting do not). -/
theorem UpdateNote_versions (db : DB) (u nid : String) (req : UpdateNoteRequest)
    (vid : String) (tids : List String) :
    ((Service.UpdateNote db u nid req vid tids).1).versions =
      ((repoUpdateNote db u nid req.title req.contentMd req.sourceURL vid).1).versions := by
  unfold Service.UpdateNote
  rcases hrep : repoUpdateNote db u nid req.title req.contentMd req.sourceURL vid with ⟨db1, res⟩
  cases res with
  | error e => simp
  | ok note =>
    simp only
    cases hreq : req.tags with
    | none =>
      cases hc : req.contentMd <;>
        simp [processNoteLinks_versions]
    | some tagNames =>
      rcases he : ensureTagsExist db1 u tagNames tids with ⟨db2, res2⟩
      have h2 : db2.versions = db1.versions := by
        have := ensureTagsExist_versions u tagNames tids db1
        rw [he] at this; exact this
      cases res2 with
      | error e => simp [he, h2]
      | ok ids =>
        cases hc : req.contentMd <;>
          simp [he, h2, setNoteTags_versions, processNoteLinks_versions]

/-- Versions recorded by a successful-validation `CreateNote`: exactly the
version-1 snapshot of the inserted row, appended atomically with it; the
tag and link phases never touch the versions table. -/
theorem CreateNote_versionsFor (db : DB) (u : String) (req : CreateNoteRequest)
    (nid vid : String) (tids : List String)
    (h1 : ¬req.title = "") (h2 : ¬req.contentMd = "") :
    versionsFor ((Service.CreateNote db u req nid vid tids).1) nid =
      versionsFor db nid ++
        [insertVersionRow
          { db with notes := db.notes ++ [createdNoteRow u req.title req.contentMd req.sourceURL nid] }
          (createdNoteRow u req.title req.contentMd req.sourceURL nid) vid] := by
  unfold Service.CreateNote
  rw [if_neg h1, if_neg h2]
  simp only [repoCreateNote]
  by_cases htags : uniqueStrings req.tags ≠ []
  · rw [if_pos htags]
    rcases he : ensureTagsExist
        (triggerInsertVersion
          { db with notes := db.notes ++ [createdNoteRow u req.title req.contentMd req.sourceURL nid] }
          (createdNoteRow u req.title req.contentMd req.sourceURL nid) vid)
        u (uniqueStrings req.tags) tids with ⟨db2, res⟩
    have h2v : db2.versions =
        (triggerInsertVersion
          { db with notes := db.notes ++ [createdNoteRow u req.title req.contentMd req.sourceURL nid] }
          (createdNoteRow u req.title req.contentMd req.sourceURL nid) vid).versions := by
      have := ensureTagsExist_versions u (uniqueStrings req.tags) tids
        (triggerInsertVersion
          { db with notes := db.notes ++ [createdNoteRow u req.title req.contentMd req.sourceURL nid] }
          (createdNoteRow u req.title req.contentMd req.sourceURL nid) vid)
      rw [he] at this; exact this
    cases res with
    | error e =>
      simp only [he]
      rw [versionsFor_of_eq h2v, versionsFor_trigger_insert]
      · unfold versionsFor
        simp
      · rfl
    | ok ids =>
      simp only [he]
      rw [versionsFor_of_eq (processNoteLinks_versions _ _ _ _),
        versionsFor_of_eq (setNoteTags_versions _ _ _),
        versionsFor_of_eq h2v, versionsFor_trigger_insert]
      · unfold versionsFor
        simp
      · rfl
  · rw [if_neg htags]
    rw [versionsFor_of_eq (processNoteLinks_versions _ _ _ _), versionsFor_trigger_insert]
    · unfold versionsFor
      simp
    · rfl

/-- C1: For every note, version 1 is created atomically with the note
itself (a valid `CreateNote` leaves the fresh note with exactly one
version, numbered 1, snapshotting the created content); every `UpdateNote`
call that changes title or body appends exactly one new version numbered
(previous max + 1); and an update that leaves title, body and source URL
unchanged (e.g. a tags-only update) appends no version, so the version
count is unchanged. -/
theorem createNote_updateNote_versioning :
    (∀ (db : DB) (u : String) (req : CreateNoteRequest) (nid vid : String)
        (tids : List String),
      req.title ≠ "" → req.contentMd ≠ "" → versionsFor db nid = [] →
      ∃ v : VersionRow,
        versionsFor ((Service.CreateNote db u req nid vid tids).1) nid = [v] ∧
        v.versionNumber = 1 ∧ v.title = req.title ∧ v.contentMd = req.contentMd ∧
        v.sourceURL = req.sourceURL) ∧
    (∀ (db : DB) (u nid : String) (req : UpdateNoteRequest) (vid : String)
        (tids : List String) (n : NoteRow),
      findNote db u nid = some n →
      ((∃ t, req.title = some t ∧ t ≠ n.title) ∨
        (∃ c, req.contentMd = some c ∧ c ≠ n.contentMd)) →
      ∃ v : VersionRow,
        versionsFor ((Service.UpdateNote db u nid req vid tids).1) nid =
          versionsFor db nid ++ [v] ∧
        v.versionNumber = maxVersionFor db nid + 1) ∧
    (∀ (db : DB) (u nid : String) (req : UpdateNoteRequest) (vid : String)
        (tids : List String) (n : NoteRow),
      findNote db u nid = some n →
      (∀ t, req.title = some t → t = n.title) →
      (∀ c, req.contentMd = some c → c = n.contentMd) →
      (∀ s, req.sourceURL = some s → some s = n.sourceURL) →
      versionsFor ((Service.UpdateNote db u nid req vid tids).1) nid =
        versionsFor db nid) := by
  refine ⟨?_, ?_, ?_⟩
  · intro db u req nid vid tids h1 h2 hfresh
    refine ⟨insertVersionRow
        { db with notes := db.notes ++ [createdNoteRow u req.title req.contentMd req.sourceURL nid] }
        (createdNoteRow u req.title req.contentMd req.sourceURL nid) vid, ?_, ?_, ?_, ?_, ?_⟩
    · rw [CreateNote_versionsFor db u req nid vid tids h1 h2, hfresh]
      rfl
    · rfl
    · rfl
    · rfl
    · rfl
  · intro db u nid req vid tids n h hch
    have hid : n.id = nid := (findNote_props h).1
    have hvers := UpdateNote_versions db u nid req vid tids
    rw [repoUpdateNote_versions req.title req.contentMd req.sourceURL vid h] at hvers
    have hcond : ¬(req.title = none ∧ req.contentMd = none ∧ req.sourceURL = none) ∧
        contentDistinct n (updatedNote n req.title req.contentMd req.sourceURL) := by
      rcases hch with ⟨t, ht, hne⟩ | ⟨c, hc, hne⟩
      · constructor
        · rintro ⟨h01, -, -⟩
          rw [ht] at h01
          exact Option.noConfusion h01
        · left
          simp [updatedNote, ht]
          exact fun hcontra => hne hcontra.symm
      · constructor
        · rintro ⟨-, h01, -⟩
          rw [hc] at h01
          exact Option.noConfusion h01
        · right; left
          simp [updatedNote, hc]
          exact fun hcontra => hne hcontra.symm
    rw [if_pos hcond] at hvers
    refine ⟨updateVersionRow db n (updatedNote n req.title req.contentMd req.sourceURL) vid,
      ?_, ?_⟩
    · unfold versionsFor
      rw [hvers, List.filter_append]
      simp [updateVersionRow, updatedNote, hid]
    · simp [updateVersionRow, updatedNote, hid]
  · intro db u nid req vid tids n h ht hc hs
    have hvers := UpdateNote_versions db u nid req vid tids
    rw [repoUpdateNote_versions req.title req.contentMd req.sourceURL vid h] at hvers
    have hnd : ¬contentDistinct n (updatedNote n req.title req.contentMd req.sourceURL) := by
      unfold contentDistinct updatedNote
      push_neg
      refine ⟨?_, ?_, ?_⟩
      · cases h0 : req.title with
        | none => rfl
        | some t => simp [ht t h0]
      · cases h0 : req.contentMd with
        | none => rfl
        | some c => simp [hc c h0]
      · cases h0 : req.sourceURL with
        | none => rfl
        | some s => simpa using (hs s h0).symm
    rw [if_neg (fun hcon => hnd hcon.2)] at hvers
    exact versionsFor_of_eq hvers nid

/-- Witness for C1 at concrete inputs: a fresh note gets exactly version 1;
a body-changing update appends exactly one version numbered max + 1; a
tags-only update appends none. -/
theorem createNote_updateNote_versioning_witness :
    (∃ v : VersionRow,
      versionsFor ((Service.CreateNote DB.empty "u" ⟨"Alpha", "Hello", none, []⟩
        "n1" "v1" []).1) "n1" = [v] ∧
      v.versionNumber = 1 ∧ v.title = "Alpha" ∧ v.contentMd = "Hello" ∧
      v.sourceURL = none) ∧
    (∃ v : VersionRow,
      versionsFor ((Service.UpdateNote
        ⟨[⟨"n1", "u", "Alpha", "Hello", none, false, none, 0⟩], [], [], [],
          [⟨"v1", "n1", 1, "Alpha", "Hello", none, [], "Initial version", 5, 0, "u"⟩]⟩
        "u" "n1" ⟨none, some "Hello world", none, none⟩ "v2" []).1) "n1" =
        versionsFor
          ⟨[⟨"n1", "u", "Alpha", "Hello", none, false, none, 0⟩], [], [], [],
            [⟨"v1", "n1", 1, "Alpha", "Hello", none, [], "Initial version", 5, 0, "u"⟩]⟩
          "n1" ++ [v] ∧
      v.versionNumber = maxVersionFor
          ⟨[⟨"n1", "u", "Alpha", "Hello", none, false, none, 0⟩], [], [], [],
            [⟨"v1", "n1", 1, "Alpha", "Hello", none, [], "Initial version", 5, 0, "u"⟩]⟩
          "n1" + 1) ∧
    (versionsFor ((Service.UpdateNote
        ⟨[⟨"n1", "u", "Alpha", "Hello", none, false, none, 0⟩], [], [], [],
          [⟨"v1", "n1", 1, "Alpha", "Hello", none, [], "Initial version", 5, 0, "u"⟩]⟩
        "u" "n1" ⟨none, none, none, some ["work"]⟩ "v2" ["t1"]).1) "n1" =
      versionsFor
        ⟨[⟨"n1", "u", "Alpha", "Hello", none, false, none, 0⟩], [], [], [],
          [⟨"v1", "n1", 1, "Alpha", "Hello", none, [], "Initial version", 5, 0, "u"⟩]⟩
        "n1") :=
  ⟨createNote_updateNote_versioning.1 DB.empty "u" ⟨"Alpha", "Hello", none, []⟩ "n1" "v1" []
      (by decide) (by decide) (by decide),
    createNote_updateNote_versioning.2.1 _ "u" "n1" ⟨none, some "Hello world", none, none⟩
      "v2" [] ⟨"n1", "u", "Alpha", "Hello", none, false, none, 0⟩ (by decide)
      (Or.inr ⟨"Hello world", rfl, by decide⟩),
    createNote_updateNote_versioning.2.2 _ "u" "n1" ⟨none, none, none, some ["work"]⟩
      "v2" ["t1"] ⟨"n1", "u", "Alpha", "Hello", none, false, none, 0⟩ (by decide)
      (by intro t h; cases h) (by intro c h; cases h) (by intro s h; cases h)⟩

theorem repoUpdateNote_versions_mono (db : DB) (u nid : String)
    (t c s : Option String) (vid : String) :
    ∃ tail, ((repoUpdateNote db u nid t c s vid).1).versions = db.versions ++ tail := by
  unfold repoUpdateNote
  cases hn : findNote db u nid with
  | none => exact ⟨[], by simp⟩
  | some n =>
    dsimp only
    by_cases hall : t = none ∧ c = none ∧ s = none
    · exact ⟨[], by simp [hall]⟩
    · rw [if_neg hall]
      by_cases hd : contentDistinct n (updatedNote n t c s)
      · exact ⟨[updateVersionRow db n (updatedNote n t c s) vid],
          by simp [hd, triggerCreateNoteVersion]⟩
      · exact ⟨[], by simp [hd]⟩

/-- The versions table after `RestoreVersion` on a valid note/version pair
is whatever the repository update (with the snapshot's values) left; the
tag restoration and link rewriting never touch it. -/
theorem RestoreVersion_versions {db : DB} {u nid vidv : String} (fresh : String)
    {n : NoteRow} (hn : findNote db u nid = some n) {ver : VersionRow}
    (hv : db.versions.find? (fun v => decide (v.id = vidv)) = some ver)
    (hb : ver.noteId = nid) :
    ((Service.RestoreVersion db u nid vidv fresh).1).versions =
      ((repoUpdateNote db u nid (some ver.title) (some ver.contentMd)
        ver.sourceURL fresh).1).versions := by
  unfold Service.RestoreVersion
  rw [hn, hv]
  dsimp only
  rw [if_neg (by simp [hb])]
  rcases hrep : repoUpdateNote db u nid (some ver.title) (some ver.contentMd)
      ver.sourceURL fresh with ⟨db1, res⟩
  have hres := repoUpdateNote_result (some ver.title) (some ver.contentMd)
    ver.sourceURL fresh hn
  rw [hrep] at hres
  simp only at hres
  cases res with
  | error e => exact absurd hres (by simp)
  | ok note =>
    dsimp only
    by_cases htags : ver.tags ≠ []
    · rw [if_pos htags]
      by_cases hrows : findTagsByNames db1 u ver.tags ≠ [] <;>
        simp [hrows, setNoteTags_versions, processNoteLinks_versions]
    · rw [if_neg htags]
      simp [setNoteTags_versions, processNoteLinks_versions]

/-- C2 counterexample: the claim fails on the code at two concrete inputs.
Restoring version 1 of a note whose current content already equals the
snapshot succeeds yet appends no version at all (the update trigger's
`WHEN` clause sees no distinct content field), so no version numbered
(current_max + 1) = 2 is created; and when the snapshot's source URL is
NULL while the note currently has one, the appended snapshot's source URL
is the note's current value, not the snapshot's. -/
theorem restoreVersion_counterexample :
    (((Service.RestoreVersion
        ⟨[⟨"n1", "u", "Alpha", "Hello", none, false, none, 0⟩], [], [], [],
          [⟨"v1", "n1", 1, "Alpha", "Hello", none, [], "Initial version", 5, 0, "u"⟩]⟩
        "u" "n1" "v1" "v2").2).isOk = true ∧
      (versionsFor ((Service.RestoreVersion
        ⟨[⟨"n1", "u", "Alpha", "Hello", none, false, none, 0⟩], [], [], [],
          [⟨"v1", "n1", 1, "Alpha", "Hello", none, [], "Initial version", 5, 0, "u"⟩]⟩
        "u" "n1" "v1" "v2").1) "n1").map (·.versionNumber) = [1]) ∧
    ((versionsFor ((Service.RestoreVersion
        ⟨[⟨"n1", "u", "t", "c", some "x", false, none, 0⟩], [], [], [],
          [⟨"v1", "n1", 1, "t2", "c", none, [], "Initial version", 1, 0, "u"⟩]⟩
        "u" "n1" "v1" "v2").1) "n1").map (fun w => (w.versionNumber, w.sourceURL)) =
      [(1, none), (2, some "x")]) := by
  refine ⟨⟨?_, ?_⟩, ?_⟩ <;> decide

/-- C2 amended: when the snapshot's content differs from the note's
current content (in title, body, or — for a non-null snapshot source URL —
source URL), `RestoreVersion` appends exactly one new version numbered
(current_max + 1) whose title and body equal the snapshot's and whose
source URL equals the snapshot's whenever the snapshot's is non-null (a
null snapshot source URL leaves the note's current source URL in place,
and a content-identical snapshot appends nothing); and restoring never
decreases the version count and never mutates or deletes existing
versions. -/
theorem restoreVersion_amended :
    (∀ (db : DB) (u nid vidv fresh : String) (n : NoteRow) (ver : VersionRow),
      findNote db u nid = some n →
      db.versions.find? (fun v => decide (v.id = vidv)) = some ver →
      ver.noteId = nid →
      contentDistinct n (updatedNote n (some ver.title) (some ver.contentMd) ver.sourceURL) →
      ∃ w : VersionRow,
        versionsFor ((Service.RestoreVersion db u nid vidv fresh).1) nid =
          versionsFor db nid ++ [w] ∧
        w.versionNumber = maxVersionFor db nid + 1 ∧
        w.title = ver.title ∧ w.contentMd = ver.contentMd ∧
        (∀ s, ver.sourceURL = some s → w.sourceURL = some s)) ∧
    (∀ (db : DB) (u nid vidv fresh : String),
      ∃ tail, ((Service.RestoreVersion db u nid vidv fresh).1).versions =
        db.versions ++ tail) := by
  constructor
  · intro db u nid vidv fresh n ver hn hv hb hd
    have hid : n.id = nid := (findNote_props hn).1
    have hvers := RestoreVersion_versions fresh hn hv hb
    rw [repoUpdateNote_versions (some ver.title) (some ver.contentMd)
      ver.sourceURL fresh hn] at hvers
    rw [if_pos ⟨by simp, hd⟩] at hvers
    refine ⟨updateVersionRow db n
      (updatedNote n (some ver.title) (some ver.contentMd) ver.sourceURL) fresh,
      ?_, ?_, ?_, ?_, ?_⟩
    · unfold versionsFor
      rw [hvers, List.filter_append]
      simp [updateVersionRow, updatedNote, hid]
    · simp [updateVersionRow, updatedNote, hid]
    · simp [updateVersionRow, updatedNote]
    · simp [updateVersionRow, updatedNote]
    · intro s hs
      simp [updateVersionRow, updatedNote, hs]
  · intro db u nid vidv fresh
    unfold Service.RestoreVersion
    cases hn : findNote db u nid with
    | none => exact ⟨[], by simp⟩
    | some n =>
      dsimp only
      cases hv : db.versions.find? (fun v => decide (v.id = vidv)) with
      | none => exact ⟨[], by simp⟩
      | some ver =>
        dsimp only
        by_cases hb : ver.noteId ≠ nid
        · exact ⟨[], by simp [hb]⟩
        · rw [if_neg hb]
          have hmono := repoUpdateNote_versions_mono db u nid (some ver.title)
            (some ver.contentMd) ver.sourceURL fresh
          rcases hrep : repoUpdateNote db u nid (some ver.title) (some ver.contentMd)
              ver.sourceURL fresh with ⟨db1, res⟩
          rw [hrep] at hmono
          obtain ⟨tail, htail⟩ := hmono
          simp only at htail
          cases res with
          | error e => exact ⟨tail, by simpa using htail⟩
          | ok note =>
            refine ⟨tail, ?_⟩
            dsimp only
            by_cases htags : ver.tags ≠ []
            · rw [if_pos htags]
              by_cases hrows : findTagsByNames db1 u ver.tags ≠ [] <;>
                simp [hrows, setNoteTags_versions, processNoteLinks_versions, htail]
            · rw [if_neg htags]
              simp [setNoteTags_versions, processNoteLinks_versions, htail]

/-- Witness for the amended C2: restoring a version whose title differs
appends one version numbered 2 with the snapshot's title and body, and
the versions table only grows. -/
theorem restoreVersion_amended_witness :
    (∃ w : VersionRow,
      versionsFor ((Service.RestoreVersion
        ⟨[⟨"n1", "u", "t", "c", some "x", false, none, 0⟩], [], [], [],
          [⟨"v1", "n1", 1, "t2", "c", none, [], "Initial version", 1, 0, "u"⟩]⟩
        "u" "n1" "v1" "v2").1) "n1" =
        versionsFor
          ⟨[⟨"n1", "u", "t", "c", some "x", false, none, 0⟩], [], [], [],
            [⟨"v1", "n1", 1, "t2", "c", none, [], "Initial version", 1, 0, "u"⟩]⟩
          "n1" ++ [w] ∧
      w.versionNumber = maxVersionFor
          ⟨[⟨"n1", "u", "t", "c", some "x", false, none, 0⟩], [], [], [],
            [⟨"v1", "n1", 1, "t2", "c", none, [], "Initial version", 1, 0, "u"⟩]⟩
          "n1" + 1 ∧
      w.title = "t2" ∧ w.contentMd = "c" ∧
      (∀ s, (none : Option String) = some s → w.sourceURL = some s)) ∧
    (∃ tail, ((Service.RestoreVersion
        ⟨[⟨"n1", "u", "t", "c", some "x", false, none, 0⟩], [], [], [],
          [⟨"v1", "n1", 1, "t2", "c", none, [], "Initial version", 1, 0, "u"⟩]⟩
        "u" "n1" "v1" "v2").1).versions =
      [⟨"v1", "n1", 1, "t2", "c", none, [], "Initial version", 1, 0, "u"⟩] ++ tail) :=
  ⟨restoreVersion_amended.1
      ⟨[⟨"n1", "u", "t", "c", some "x", false, none, 0⟩], [], [], [],
        [⟨"v1", "n1", 1, "t2", "c", none, [], "Initial version", 1, 0, "u"⟩]⟩
      "u" "n1" "v1" "v2" ⟨"n1", "u", "t", "c", some "x", false, none, 0⟩
      ⟨"v1", "n1", 1, "t2", "c", none, [], "Initial version", 1, 0, "u"⟩
      (by decide) (by decide) (by decide) (by decide),
    restoreVersion_amended.2
      ⟨[⟨"n1", "u", "t", "c", some "x", false, none, 0⟩], [], [], [],
        [⟨"v1", "n1", 1, "t2", "c", none, [], "Initial version", 1, 0, "u"⟩]⟩
      "u" "n1" "v1" "v2"⟩

/-- C3: `DeleteTag(owner, tagId)` deletes every note of that owner that
carries the tag — not just the association — in one atomic state
transition (the repository runs it inside a single transaction), and
returns both the count and the ids of the deleted notes; every note of
the owner (or of any other owner) that does not carry the tag survives
unchanged. -/
theorem deleteTag_cascades (db : DB) (u tagId : String) (tag : TagRow)
    (hftag : findTag db u tagId = some tag)
    (hnodup : (db.notes.map (·.id)).Nodup) :
    ∃ ids : List String,
      (Service.DeleteTag db u tagId).2 = .ok (ids.length, ids) ∧
      ids = (db.notes.filter (carriesTag db u tagId)).map (·.id) ∧
      ((Service.DeleteTag db u tagId).1).notes =
        db.notes.filter (fun n => !(carriesTag db u tagId n)) := by
  have hmem : tag ∈ db.tags := List.mem_of_find?_eq_some hftag
  have hprops : tag.userId = u ∧ tag.id = tagId := by
    have := List.find?_some hftag
    simpa using this
  have hguard : ¬((db.tags.find? (fun t => decide (t.id = tagId ∧ t.userId = u))).isNone = true) := by
    intro hcon
    rw [Option.isNone_iff_eq_none, List.find?_eq_none] at hcon
    exact hcon tag hmem (by simp [hprops.1, hprops.2])
  have hcong : ∀ n ∈ db.notes,
      (decide (¬(n.id ∈ (db.notes.filter (carriesTag db u tagId)).map (·.id) ∧ n.userId = u)))
        = !(carriesTag db u tagId n) := by
    intro n hn
    by_cases hc : carriesTag db u tagId n = true
    · have hid : n.id ∈ (db.notes.filter (carriesTag db u tagId)).map (·.id) :=
        List.mem_map.mpr ⟨n, List.mem_filter.mpr ⟨hn, hc⟩, rfl⟩
      have huid : n.userId = u := by
        have := of_decide_eq_true hc
        exact this.1
      simp [hc, hid, huid]
    · have hid : ¬(n.id ∈ (db.notes.filter (carriesTag db u tagId)).map (·.id) ∧ n.userId = u) := by
        rintro ⟨hin, -⟩
        obtain ⟨m, hmF, hmId⟩ := List.mem_map.mp hin
        obtain ⟨hmMem, hmC⟩ := List.mem_filter.mp hmF
        have : m = n := List.inj_on_of_nodup_map hnodup hmMem hn hmId
        rw [this] at hmC
        exact hc hmC
      have hcf : carriesTag db u tagId n = false := by
        cases hcb : carriesTag db u tagId n
        · rfl
        · exact absurd hcb hc
      rw [hcf]
      simp only [Bool.not_false]
      exact decide_eq_true hid
  have hidsNodup : ((db.notes.filter (carriesTag db u tagId)).map (·.id)).Nodup :=
    List.Nodup.sublist (List.Sublist.map _ (List.filter_sublist db.notes)) hnodup
  refine ⟨(db.notes.filter (carriesTag db u tagId)).map (·.id), ?_, rfl, ?_⟩
  · unfold Service.DeleteTag
    rw [hftag]
    dsimp only
    unfold tagRepoDelete
    rw [if_neg hguard]
    dsimp only
    unfold getNotesCountByTag
    rw [List.dedup_eq_self.mpr hidsNodup]
  · unfold Service.DeleteTag
    rw [hftag]
    dsimp only
    unfold tagRepoDelete
    rw [if_neg hguard]
    dsimp only
    exact List.filter_congr hcong

/-- Witness for C3: a tag attached to three of four notes; deleting it
removes exactly those three notes and reports their ids and count. -/
theorem deleteTag_cascades_witness :
    ∃ ids : List String,
      (Service.DeleteTag
        ⟨[⟨"a", "u", "A", "x", none, false, none, 0⟩,
          ⟨"b", "u", "B", "x", none, false, none, 0⟩,
          ⟨"c", "u", "C", "x", none, false, none, 0⟩,
          ⟨"d", "u", "D", "x", none, false, none, 0⟩],
          [⟨"tg", "u", "work"⟩], [("a", "tg"), ("b", "tg"), ("c", "tg")], [], []⟩
        "u" "tg").2 = .ok (ids.length, ids) ∧
      ids = (([⟨"a", "u", "A", "x", none, false, none, 0⟩,
          ⟨"b", "u", "B", "x", none, false, none, 0⟩,
          ⟨"c", "u", "C", "x", none, false, none, 0⟩,
          ⟨"d", "u", "D", "x", none, false, none, 0⟩] : List NoteRow).filter
          (carriesTag
            ⟨[⟨"a", "u", "A", "x", none, false, none, 0⟩,
              ⟨"b", "u", "B", "x", none, false, none, 0⟩,
              ⟨"c", "u", "C", "x", none, false, none, 0⟩,
              ⟨"d", "u", "D", "x", none, false, none, 0⟩],
              [⟨"tg", "u", "work"⟩], [("a", "tg"), ("b", "tg"), ("c", "tg")], [], []⟩
            "u" "tg")).map (·.id) ∧
      ((Service.DeleteTag
        ⟨[⟨"a", "u", "A", "x", none, false, none, 0⟩,
          ⟨"b", "u", "B", "x", none, false, none, 0⟩,
          ⟨"c", "u", "C", "x", none, false, none, 0⟩,
          ⟨"d", "u", "D", "x", none, false, none, 0⟩],
          [⟨"tg", "u", "work"⟩], [("a", "tg"), ("b", "tg"), ("c", "tg")], [], []⟩
        "u" "tg").1).notes =
        ([⟨"a", "u", "A", "x", none, false, none, 0⟩,
          ⟨"b", "u", "B", "x", none, false, none, 0⟩,
          ⟨"c", "u", "C", "x", none, false, none, 0⟩,
          ⟨"d", "u", "D", "x", none, false, none, 0⟩] : List NoteRow).filter
          (fun n => !(carriesTag
            ⟨[⟨"a", "u", "A", "x", none, false, none, 0⟩,
              ⟨"b", "u", "B", "x", none, false, none, 0⟩,
              ⟨"c", "u", "C", "x", none, false, none, 0⟩,
              ⟨"d", "u", "D", "x", none, false, none, 0⟩],
              [⟨"tg", "u", "work"⟩], [("a", "tg"), ("b", "tg"), ("c", "tg")], [], []⟩
            "u" "tg" n)) :=
  deleteTag_cascades
    ⟨[⟨"a", "u", "A", "x", none, false, none, 0⟩,
      ⟨"b", "u", "B", "x", none, false, none, 0⟩,
      ⟨"c", "u", "C", "x", none, false, none, 0⟩,
      ⟨"d", "u", "D", "x", none, false, none, 0⟩],
      [⟨"tg", "u", "work"⟩], [("a", "tg"), ("b", "tg"), ("c", "tg")], [], []⟩
    "u" "tg" ⟨"tg", "u", "work"⟩ (by decide) (by decide)

/-- C4 counterexample: the claim counts characters, but
`len(strings.TrimSpace(req.Query))` in the Go code counts UTF-8 bytes.
The query "é" is 1 character after trimming — the claim says a
1-character query fails — yet it is 2 bytes, so validation passes it;
and a query of 26 copies of "ç" is 26 characters, inside the claim's
[2, 50] character window, yet 52 bytes, so validation rejects it. -/
theorem search_query_validation_counterexample :
    ((goTrimSpace "é".toList).length = 1 ∧
      (Service.SearchValidate "é").isOk = true) ∧
    ((goTrimSpace (String.mk (List.replicate 26 'ç')).toList).length = 26 ∧
      (Service.SearchValidate (String.mk (List.replicate 26 'ç'))).isOk = false) := by
  refine ⟨⟨?_, ?_⟩, ⟨?_, ?_⟩⟩ <;> decide

/-- C4 amended: `Search` passes query validation exactly when the UTF-8
byte length of the query after trimming (Unicode) whitespace lies in
[2, 50] — Go's `len` counts bytes; the separate empty-query guard adds no
extra cases because an empty query trims to 0 bytes.  Boundary checks (in
bytes): 1 fails, 2 passes, 50 passes, 51 fails; the one-character
two-byte query "é" passes. -/
theorem search_query_validation_bytes :
    (∀ q : String,
      (Service.SearchValidate q).isOk = true ↔
        (2 ≤ goStrLen (goTrimSpace q.toList) ∧ goStrLen (goTrimSpace q.toList) ≤ 50)) ∧
    (Service.SearchValidate "a").isOk = false ∧
    (Service.SearchValidate "ab").isOk = true ∧
    (Service.SearchValidate (String.mk (List.replicate 50 'q'))).isOk = true ∧
    (Service.SearchValidate (String.mk (List.replicate 51 'q'))).isOk = false ∧
    (Service.SearchValidate "é").isOk = true := by
  refine ⟨?_, by decide, by decide, by decide, by decide, by decide⟩
  intro q
  unfold Service.SearchValidate
  by_cases hq : q = ""
  · subst hq
    decide
  · rw [if_neg hq]
    dsimp only
    split_ifs with h2 h50
    · simp only [Except.isOk]
      constructor
      · intro h; cases h
      · intro h; omega
    · simp only [Except.isOk]
      constructor
      · intro h; cases h
      · intro h; omega
    · simp only [Except.isOk]
      constructor
      · intro h; omega
      · intro h; rfl

theorem dedupKeepFirst_nodup_and_notin :
    ∀ (l seen : List String),
      (dedupKeepFirst seen l).Nodup ∧ ∀ x ∈ dedupKeepFirst seen l, x ∉ seen := by
  intro l
  induction l with
  | nil => intro seen; simp [dedupKeepFirst]
  | cons y ys ih =>
    intro seen
    by_cases hy : y ∈ seen
    · simpa [dedupKeepFirst, hy] using ih seen
    · have ihy := ih (y :: seen)
      refine ⟨?_, ?_⟩
      · simp only [dedupKeepFirst, if_neg hy]
        refine List.nodup_cons.mpr ⟨?_, ihy.1⟩
        intro hmem
        exact (ihy.2 y hmem) (by simp)
      · intro x hx
        simp only [dedupKeepFirst, if_neg hy, List.mem_cons] at hx
        rcases hx with rfl | hx
        · exact hy
        · have := ihy.2 x hx
          intro hseen
          exact this (by simp [hseen])

theorem dedupKeepFirst_sublist :
    ∀ (l seen : List String), (dedupKeepFirst seen l).Sublist l := by
  intro l
  induction l with
  | nil => intro seen; simp [dedupKeepFirst]
  | cons y ys ih =>
    intro seen
    by_cases hy : y ∈ seen
    · simp only [dedupKeepFirst, if_pos hy]
      exact (ih seen).trans (List.sublist_cons_self y ys)
    · simp only [dedupKeepFirst, if_neg hy]
      exact List.Sublist.cons₂ y (ih (y :: seen))

theorem dedupKeepFirst_mem :
    ∀ (l seen : List String) (x : String),
      x ∈ dedupKeepFirst seen l ↔ x ∈ l ∧ x ∉ seen := by
  intro l
  induction l with
  | nil => intro seen x; simp [dedupKeepFirst]
  | cons y ys ih =>
    intro seen x
    by_cases hy : y ∈ seen
    · simp only [dedupKeepFirst, if_pos hy, ih, List.mem_cons]
      constructor
      · rintro ⟨hx, hs⟩; exact ⟨Or.inr hx, hs⟩
      · rintro ⟨hx | hx, hs⟩
        · exact absurd hy (hx ▸ hs)
        · exact ⟨hx, hs⟩
    · simp only [dedupKeepFirst, if_neg hy, List.mem_cons, ih]
      constructor
      · rintro (rfl | ⟨hx, hs⟩)
        · exact ⟨Or.inl rfl, hy⟩
        · exact ⟨Or.inr hx, fun hc => hs (by simp [hc])⟩
      · rintro ⟨rfl | hx, hs⟩
        · exact Or.inl rfl
        · by_cases hxy : x = y
          · exact Or.inl hxy
          · exact Or.inr ⟨hx, by simp [hxy, hs]⟩

/-- C5: `ExtractNoteLinks` returns the inner texts of the `[[...]]`
matches with duplicates collapsed by exact string match and the first
occurrence kept in order (the result is duplicate-free, is a sublist of
the raw match list — hence in first-occurrence order — and keeps exactly
the set of raw matches); case is preserved, so "Foo" and "foo" stay
distinct; and the worked example returns ["Alpha", "Beta"]. -/
theorem extractNoteLinks_spec :
    ExtractNoteLinks "See [[Alpha]] and [[Beta]] and [[Alpha]]" = ["Alpha", "Beta"] ∧
    (∀ s : String, (ExtractNoteLinks s).Nodup) ∧
    (∀ s : String, (ExtractNoteLinks s).Sublist ((linkMatches s.toList).map String.mk)) ∧
    (∀ (s t : String), t ∈ (linkMatches s.toList).map String.mk ↔ t ∈ ExtractNoteLinks s) ∧
    ExtractNoteLinks "See [[Foo]] and [[foo]]" = ["Foo", "foo"] := by
  refine ⟨by decide, ?_, ?_, ?_, by decide⟩
  · intro s
    exact (dedupKeepFirst_nodup_and_notin ((linkMatches s.toList).map String.mk) []).1
  · intro s
    exact dedupKeepFirst_sublist ((linkMatches s.toList).map String.mk) []
  · intro s t
    rw [ExtractNoteLinks, dedupKeepFirst_mem]
    simp

theorem diffWalk_self_unchanged :
    ∀ (l : List String) (ln : Nat) (d : DiffLine),
      d ∈ diffWalk l l ln → d.type = .unchanged := by
  intro l
  induction l with
  | nil => intro ln d hd; simp [diffWalk, diffTailNew] at hd
  | cons o os ih =>
    intro ln d hd
    have heq : diffWalk (o :: os) (o :: os) ln =
        ⟨.unchanged, o, ln⟩ :: diffWalk os os (ln + 1) := by
      simp [diffWalk]
    rw [heq] at hd
    rcases List.mem_cons.mp hd with h | h
    · rw [h]
    · exact ih (ln + 1) d h

/-- C6: `GenerateContentDiff` is the naive positional line diff: on the
worked example it yields unchanged "a", a removed+added pair at line 2,
and unchanged "c"; and whenever the two bodies agree, every emitted
record at every index is an `unchanged` record. -/
theorem generateContentDiff_spec :
    GenerateContentDiff "a\nb\nc" "a\nx\nc" =
      [⟨.unchanged, "a", 1⟩, ⟨.removed, "b", 2⟩, ⟨.added, "x", 2⟩, ⟨.unchanged, "c", 3⟩] ∧
    (∀ (s : String) (d : DiffLine), d ∈ GenerateContentDiff s s → d.type = .unchanged) := by
  refine ⟨by decide, ?_⟩
  intro s d hd
  exact diffWalk_self_unchanged _ 1 d hd

/-- C9: `ListNotes` floors the page to 1, replaces an invalid (< 1)
perPage by the configured default, caps the result at the configured
maximum, and reports `ceil(total / perPage)` total pages for the
effective perPage: the page count is the least `k` with
`total ≤ k * perPage`. -/
theorem listNotes_pagination (d m page perPage : Int) (total : Nat)
    (hd : 1 ≤ d) (hdm : d ≤ m) :
    ((Service.ListNotes d m page perPage total).page = if page < 1 then 1 else page) ∧
    (perPage < 1 → (Service.ListNotes d m page perPage total).perPage = d) ∧
    (1 ≤ perPage → (Service.ListNotes d m page perPage total).perPage = min perPage m) ∧
    ((Service.ListNotes d m page perPage total).totalPages =
      (total + (Service.ListNotes d m page perPage total).perPage.toNat - 1) /
        (Service.ListNotes d m page perPage total).perPage.toNat) ∧
    (∀ k : Nat, (Service.ListNotes d m page perPage total).totalPages ≤ k ↔
      total ≤ k * (Service.ListNotes d m page perPage total).perPage.toNat) := by
  have hpp : 1 ≤ (Service.ListNotes d m page perPage total).perPage := by
    unfold Service.ListNotes
    dsimp only
    split_ifs <;> omega
  refine ⟨rfl, ?_, ?_, rfl, ?_⟩
  · intro h
    unfold Service.ListNotes
    dsimp only
    rw [if_pos h]
    rw [if_neg (show ¬(d > m) by omega)]
  · intro h
    unfold Service.ListNotes
    dsimp only
    rw [if_neg (show ¬(perPage < 1) by omega)]
    rw [Int.min_def]
    split_ifs <;> omega
  · intro k
    set p := (Service.ListNotes d m page perPage total).perPage.toNat with hp
    have hppos : 0 < p := by
      rw [hp]
      omega
    have : (Service.ListNotes d m page perPage total).totalPages = (total + p - 1) / p := rfl
    rw [this, Nat.div_le_iff_le_mul_add_pred hppos, Nat.mul_comm]
    omega

/-- Witness for C9 at `default = 20`, `max = 100`, `page = 0`,
`perPage = 0`, `total = 45`. -/
theorem listNotes_pagination_witness :
    ((Service.ListNotes 20 100 0 0 45).page = if (0 : Int) < 1 then 1 else 0) ∧
    ((0 : Int) < 1 → (Service.ListNotes 20 100 0 0 45).perPage = 20) ∧
    ((1 : Int) ≤ 0 → (Service.ListNotes 20 100 0 0 45).perPage = min 0 100) ∧
    ((Service.ListNotes 20 100 0 0 45).totalPages =
      (45 + (Service.ListNotes 20 100 0 0 45).perPage.toNat - 1) /
        (Service.ListNotes 20 100 0 0 45).perPage.toNat) ∧
    (∀ k : Nat, (Service.ListNotes 20 100 0 0 45).totalPages ≤ k ↔
      45 ≤ k * (Service.ListNotes 20 100 0 0 45).perPage.toNat) :=
  listNotes_pagination 20 100 0 0 45 (by decide) (by decide)

/-- C7: when sharing a note public whose generated slug is already taken,
the stored slug is the generated slug suffixed with "-" plus the first 8
characters of the note's id, and — on a successful toggle, i.e. one the
`public_slug UNIQUE` constraint lets through — that slug is globally
unique across all notes: exactly one note row carries it afterwards. -/
theorem countP_map_apply {α β : Type} (p : β → Bool) (f : α → β) (l : List α) :
    (l.map f).countP p = l.countP (fun a => p (f a)) := by
  rw [List.countP_map]
  rfl

theorem shareNote_slug_collision (db : DB) (u nid : String) (note : NoteRow)
    (r : Service.ShareNoteResult)
    (hn : findNote db u nid = some note)
    (hnodup : (db.notes.map (·.id)).Nodup)
    (hcol : Service.isSlugAvailable db (generateSlug note.title nid) = false)
    (hok : (Service.ShareNote db u nid true).2 = .ok r) :
    r.publicSlug = some (generateSlug note.title nid ++ "-" ++ String.mk (nid.toList.take 8)) ∧
    (((Service.ShareNote db u nid true).1).notes.countP
      (fun m => decide (m.publicSlug =
        some (generateSlug note.title nid ++ "-" ++ String.mk (nid.toList.take 8))))) = 1 := by
  have hid : note.id = nid := (findNote_props hn).1
  have huid : note.userId = u := (findNote_props hn).2
  have hmem : note ∈ db.notes := findNote_mem hn
  unfold Service.ShareNote at hok ⊢
  rw [hn] at hok ⊢
  dsimp only at hok ⊢
  rw [if_pos rfl] at hok ⊢
  simp only [hcol, Bool.false_eq_true, if_false] at hok ⊢
  by_cases hany : (db.notes.any (fun n => decide (n.id ≠ nid ∧ n.publicSlug =
      some (generateSlug note.title nid ++ "-" ++ String.mk (nid.toList.take 8))))) = true
  · rw [if_pos hany] at hok
    simp at hok
  · rw [if_neg hany] at hok ⊢
    have hnostranger : ∀ n ∈ db.notes,
        ¬(n.id ≠ nid ∧ n.publicSlug =
          some (generateSlug note.title nid ++ "-" ++ String.mk (nid.toList.take 8))) := by
      intro n hnn hcon
      exact hany (List.any_eq_true.mpr ⟨n, hnn, decide_eq_true hcon⟩)
    constructor
    · have : r = ⟨true, some (generateSlug note.title nid ++ "-" ++
          String.mk (nid.toList.take 8))⟩ := by
        simpa using hok.symm
      rw [this]
    · dsimp only
      rw [countP_map_apply]
      have hcong : ∀ n ∈ db.notes,
          ((fun m => decide (m.publicSlug =
            some (generateSlug note.title nid ++ "-" ++ String.mk (nid.toList.take 8))))
            (if n.id = nid ∧ n.userId = u then
              { n with
                isPublic := true
                publicSlug := some (generateSlug note.title nid ++ "-" ++
                  String.mk (nid.toList.take 8)) }
              else n)) = true ↔ (n == note) = true := by
        intro n hnn
        by_cases hcond : n.id = nid ∧ n.userId = u
        · have : n = note := List.inj_on_of_nodup_map hnodup hnn hmem (by rw [hcond.1, hid])
          simp [this, hid, huid]
        · rw [if_neg hcond]
          constructor
          · intro hslug
            have hslug' := of_decide_eq_true hslug
            have hnid : n.id = nid := by
              by_contra hne
              exact hnostranger n hnn ⟨hne, hslug'⟩
            exact absurd ⟨hnid, by
              have : n = note := List.inj_on_of_nodup_map hnodup hnn hmem (by rw [hnid, hid])
              rw [this, huid]⟩ hcond
          · intro hbeq
            have : n = note := of_decide_eq_true hbeq
            exact absurd ⟨by rw [this, hid], by rw [this, huid]⟩ hcond
      rw [List.countP_congr hcong]
      have : db.notes.countP (fun n => n == note) = db.notes.count note := rfl
      rw [this]
      exact List.count_eq_one_of_mem (List.Nodup.of_map _ hnodup) hmem

/-- Witness for C7: note "bbbb2222-y" titled "Foo" is shared while another
note already holds slug "foo"; the result is "foo-bbbb2222" and exactly
one note carries it. -/
theorem shareNote_slug_collision_witness :
    (⟨true, some "foo-bbbb2222"⟩ : Service.ShareNoteResult).publicSlug =
      some (generateSlug "Foo" "bbbb2222-y" ++ "-" ++
        String.mk ("bbbb2222-y".toList.take 8)) ∧
    (((Service.ShareNote
      ⟨[⟨"aaaa1111-x", "u", "Foo", "x", none, true, some "foo", 0⟩,
        ⟨"bbbb2222-y", "u", "Foo", "y", none, false, none, 0⟩], [], [], [], []⟩
      "u" "bbbb2222-y" true).1).notes.countP
      (fun m => decide (m.publicSlug =
        some (generateSlug "Foo" "bbbb2222-y" ++ "-" ++
          String.mk ("bbbb2222-y".toList.take 8))))) = 1 :=
  shareNote_slug_collision
    ⟨[⟨"aaaa1111-x", "u", "Foo", "x", none, true, some "foo", 0⟩,
      ⟨"bbbb2222-y", "u", "Foo", "y", none, false, none, 0⟩], [], [], [], []⟩
    "u" "bbbb2222-y" ⟨"bbbb2222-y", "u", "Foo", "y", none, false, none, 0⟩
    ⟨true, some "foo-bbbb2222"⟩ (by decide) (by decide) (by decide) (by decide)

/-- C8: `GetVectorSpace` includes a scanned point exactly when it has a
vector: a point converts to nothing iff its vector is missing or unset,
every point with a vector contributes its converted record to the result,
the result is precisely the conversion of the kept points, and the
returned count equals both the number of returned points and the number
of scanned points that have a vector. -/
theorem getVectorSpace_filters :
    ∀ (α : Type) (db : DB) (points : List (Option (RetrievedPoint α))),
      (Service.GetVectorSpace db points).total =
        (Service.GetVectorSpace db points).points.length ∧
      (Service.GetVectorSpace db points).total = points.countP hasVector ∧
      (∀ p : Option (RetrievedPoint α),
        retrievedToVectorPoint db p = none ↔ hasVector p = false) ∧
      (Service.GetVectorSpace db points).points =
        points.filterMap (retrievedToVectorPoint db) ∧
      (∀ p ∈ points, hasVector p = true →
        ∃ vp, retrievedToVectorPoint db p = some vp ∧
          vp ∈ (Service.GetVectorSpace db points).points) := by
  have hnone : ∀ (α : Type) (db : DB) (p : Option (RetrievedPoint α)),
      retrievedToVectorPoint db p = none ↔ hasVector p = false := by
    intro α db p
    cases p with
    | none => simp [retrievedToVectorPoint, hasVector]
    | some pt =>
      cases hv : pt.vectors with
      | none => simp [retrievedToVectorPoint, hasVector, hv]
      | some vec => simp [retrievedToVectorPoint, hasVector, hv]
  have hcount : ∀ (α : Type) (db : DB) (points : List (Option (RetrievedPoint α))),
      (points.filterMap (retrievedToVectorPoint db)).length = points.countP hasVector := by
    intro α db points
    induction points with
    | nil => rfl
    | cons p ps ih =>
      cases p with
      | none => simpa [List.filterMap_cons, retrievedToVectorPoint, hasVector] using ih
      | some pt =>
        cases hv : pt.vectors with
        | none =>
          simpa [List.filterMap_cons, retrievedToVectorPoint, hasVector, hv] using ih
        | some vec =>
          simp [List.filterMap_cons, retrievedToVectorPoint, hasVector, hv, ih,
            List.countP_cons]
  intro α db points
  refine ⟨rfl, hcount α db points, hnone α db, rfl, ?_⟩
  intro p hp hvec
  cases hsome : retrievedToVectorPoint db p with
  | none =>
    rw [hnone α db p] at hsome
    rw [hvec] at hsome
    cases hsome
  | some vp =>
    exact ⟨vp, rfl, List.mem_filterMap.mpr ⟨p, hp, hsome⟩⟩

/-- Witness for C6: the diff of a body with itself at a concrete input is
all-unchanged. -/
theorem generateContentDiff_spec_witness :
    (⟨DiffType.unchanged, "a", 1⟩ : DiffLine) ∈ GenerateContentDiff "a\nb" "a\nb" ∧
    (⟨DiffType.unchanged, "a", 1⟩ : DiffLine).type = DiffType.unchanged :=
  ⟨by decide, generateContentDiff_spec.2 "a\nb" ⟨DiffType.unchanged, "a", 1⟩ (by decide)⟩

/-- Witness for C8 at a concrete scan result: the nil point and the
vectorless point are skipped, the two points with vectors are returned,
and the count is 2. -/
theorem getVectorSpace_filters_witness :
    (Service.GetVectorSpace DB.empty
      [none, some ⟨none, some ⟨some "a", some "A"⟩⟩,
        some ⟨some (7 : Nat), some ⟨some "a", some "A"⟩⟩, some ⟨some 9, none⟩]).total = 2 ∧
    (∃ vp, retrievedToVectorPoint DB.empty
        (some (⟨some (7 : Nat), some ⟨some "a", some "A"⟩⟩ : RetrievedPoint Nat)) = some vp ∧
      vp ∈ (Service.GetVectorSpace DB.empty
        [none, some ⟨none, some ⟨some "a", some "A"⟩⟩,
          some ⟨some (7 : Nat), some ⟨some "a", some "A"⟩⟩, some ⟨some 9, none⟩]).points) :=
  ⟨by decide,
    (getVectorSpace_filters Nat DB.empty
      [none, some ⟨none, some ⟨some "a", some "A"⟩⟩,
        some ⟨some 7, some ⟨some "a", some "A"⟩⟩, some ⟨some 9, none⟩]).2.2.2.2
      (some ⟨some 7, some ⟨some "a", some "A"⟩⟩) (by decide) (by decide)⟩

/-- C10: `CreateNote` is not atomic with tag resolution.  At the concrete
input below — non-empty title and body and a tag list whose only entry
trims to the empty string — the call returns the tag-processing error, yet
the note row and its version-1 snapshot are already persisted and remain
in the store. -/
theorem createNote_partial_persistence :
    (Service.CreateNote DB.empty "u" ⟨"T", "C", none, [" "]⟩ "n9" "v9" ["t9"]).2 =
      .error "failed to process tags: tag name cannot be empty" ∧
    ((Service.CreateNote DB.empty "u" ⟨"T", "C", none, [" "]⟩ "n9" "v9" ["t9"]).1).notes =
      [⟨"n9", "u", "T", "C", none, false, none, 0⟩] ∧
    versionsFor ((Service.CreateNote DB.empty "u" ⟨"T", "C", none, [" "]⟩
        "n9" "v9" ["t9"]).1) "n9" =
      [⟨"v9", "n9", 1, "T", "C", none, [], "Initial version", 1, 0, "u"⟩] := by
  refine ⟨?_, ?_, ?_⟩ <;> decide
